import Mathlib

/-!
Verification of the instafetch API (Bun + Hono + Drizzle + SQLite).

The data model follows `apps/api/src/db/schema.ts` (tables `accounts`,
`posts`, `media`, `settings`, `digests`, `digest_posts`), and each route
handler of `routes/accounts.ts`, `routes/posts.ts`, `routes/media.ts`,
`routes/settings.ts` and the digests routes is embedded as a pure function
from a database state to a status code and a successor state.  SQLite is
modelled with foreign-key enforcement on (the Turso/libSQL default):
`ON DELETE CASCADE` removes child rows, and `ON DELETE SET NULL` on a
NOT NULL column makes the parent delete fail with a constraint error.
-/

inductive AccountStatus where
| active
| paused
| error
deriving DecidableEq, Repr

inductive MediaKind where
| image
| video
| carousel
deriving DecidableEq, Repr

inductive DigestFrequency where
| daily
| weekly
deriving DecidableEq, Repr

/-- A row of the `accounts` table. -/
structure Account where
  id : String
  handle : String
  url : String
  createdAt : Int
  status : AccountStatus
  lastCheckedAt : Option Int
  lastShortcode : Option String
deriving DecidableEq, Repr

/-- A row of the `posts` table. -/
structure Post where
  id : String
  accountId : String
  shortcode : String
  caption : Option String
  publishedAt : Int
  raw : Option String
deriving DecidableEq, Repr

/-- A row of the `media` table. -/
structure MediaRow where
  id : String
  postId : String
  kind : MediaKind
  url : String
  width : Option Int
  height : Option Int
  thumbUrl : Option String
deriving DecidableEq, Repr

/-- A row of the `settings` table. -/
structure SettingsRow where
  id : Int
  digestFrequency : DigestFrequency
  instantAlerts : Bool
deriving DecidableEq, Repr

/-- A row of the `digests` table. -/
structure Digest where
  id : String
  sentAt : Int
  periodStart : Int
  periodEnd : Int
deriving DecidableEq, Repr

/-- A row of the `digest_posts` join table. -/
structure DigestPost where
  digestId : String
  postId : String
deriving DecidableEq, Repr

/-- The whole database state; each list holds a table's rows in rowid order. -/
structure DB where
  accounts : List Account
  posts : List Post
  media : List MediaRow
  settingsRows : List SettingsRow
  digests : List Digest
  digestPosts : List DigestPost
deriving DecidableEq, Repr

def emptyDB : DB := ⟨[], [], [], [], [], []⟩

/-- Status code plus successor database state of a write route. -/
structure RouteResult where
  status : Nat
  db : DB
deriving DecidableEq, Repr

/-- Does the first character list start with the second? -/
def charsStartWith : List Char → List Char → Bool
  | _, [] => true
  | [], _ :: _ => false
  | c :: cs, d :: ds => c == d && charsStartWith cs ds

/-- Does the first character list contain the second as a contiguous run? -/
def charsContain : List Char → List Char → Bool
  | [], pat => pat.isEmpty
  | c :: cs, pat => charsStartWith (c :: cs) pat || charsContain cs pat

/-- JavaScript's `String.prototype.includes`: the pattern occurs somewhere in
the string. -/
def jsIncludes (s pat : String) : Bool := charsContain s.data pat.data

/-- The message SQLite raises when the unique index
`idx_posts_account_shortcode` on `posts(account_id, shortcode)` is violated. -/
def sqliteUniquePostsMsg : String :=
  "UNIQUE constraint failed: posts.account_id, posts.shortcode"

/-- The pattern the `POST /posts` catch block matches against the error message
(`routes/posts.ts` line 138). -/
def postPostsConflictPattern : String :=
  "UNIQUE constraint failed: posts.account_id, posts.shortcode"

/-- The pattern the `PATCH /posts/:id` catch block matches against the error
message (`routes/posts.ts` line 188); note the camelCase `accountId`. -/
def patchPostsConflictPattern : String :=
  "UNIQUE constraint failed: posts.accountId, posts.shortcode"

/-- Status `POST /posts` answers on a duplicate `(accountId, shortcode)`:
409 when its pattern occurs in the SQLite message, otherwise 500. -/
def postPostsConflictStatus : Nat :=
  if jsIncludes sqliteUniquePostsMsg postPostsConflictPattern then 409 else 500

/-- Status `PATCH /posts/:id` answers on a duplicate `(accountId, shortcode)`:
409 when its pattern occurs in the SQLite message, otherwise 500. -/
def patchPostsConflictStatus : Nat :=
  if jsIncludes sqliteUniquePostsMsg patchPostsConflictPattern then 409 else 500

/-- Body accepted by `newAccountSchema` (status already defaulted to active). -/
structure NewAccountInput where
  handle : String
  url : String
  status : AccountStatus
deriving DecidableEq, Repr

/-- Body accepted by `updateAccountSchema`; absent keys are `none`. -/
structure UpdateAccountInput where
  handle : Option String
  url : Option String
  status : Option AccountStatus
deriving DecidableEq, Repr

/-- Body accepted by `newPostSchema`. -/
structure NewPostInput where
  accountId : String
  shortcode : String
  publishedAt : Int
  caption : Option String
  raw : Option String
deriving DecidableEq, Repr

/-- Body accepted by `updatePostSchema`; absent keys are `none`. -/
structure UpdatePostInput where
  shortcode : Option String
  publishedAt : Option Int
  caption : Option String
  raw : Option String
deriving DecidableEq, Repr

/-- Body accepted by `updateSettingsSchema`; absent keys are `none`. -/
structure UpdateSettingsInput where
  digestFrequency : Option DigestFrequency
  instantAlerts : Option Bool
deriving DecidableEq, Repr

/-- Body accepted by `newDigestSchema`. -/
structure NewDigestInput where
  sentAt : Int
  periodStart : Int
  periodEnd : Int
deriving DecidableEq, Repr

/-- Body accepted by `updateDigestSchema`; absent keys are `none`. -/
structure UpdateDigestInput where
  sentAt : Option Int
  periodStart : Option Int
  periodEnd : Option Int
deriving DecidableEq, Repr

/-- `POST /accounts`: insert a row with a generated id; any `UNIQUE constraint
failed` message (id primary key or the unique handle index) is answered 409. -/
def createAccount (db : DB) (id : String) (now : Int) (inp : NewAccountInput) :
    RouteResult :=
  if db.accounts.any (fun a => a.id == id || a.handle == inp.handle) then
    ⟨409, db⟩
  else
    ⟨201,
      { db with
        accounts :=
          db.accounts ++ [⟨id, inp.handle, inp.url, now, inp.status, none, none⟩] }⟩

def applyAccountUpdate (a : Account) (inp : UpdateAccountInput) : Account :=
  { a with
    handle := inp.handle.getD a.handle
    url := inp.url.getD a.url
    status := inp.status.getD a.status }

/-- `PATCH /accounts/:id`: empty body is 400, unmatched id is 404, a handle
colliding with another row's handle is 409, otherwise the row is updated. -/
def updateAccount (db : DB) (id : String) (inp : UpdateAccountInput) :
    RouteResult :=
  if inp.handle == none && inp.url == none && inp.status == none then
    ⟨400, db⟩
  else if !(db.accounts.any (fun a => a.id == id)) then
    ⟨404, db⟩
  else if (match inp.handle with
           | some h => db.accounts.any (fun b => b.id != id && b.handle == h)
           | none => false) then
    ⟨409, db⟩
  else
    ⟨200,
      { db with
        accounts := db.accounts.map fun a =>
          if a.id == id then applyAccountUpdate a inp else a }⟩

/-- `DELETE /accounts/:id`: cascades to the account's posts and their media.
If one of those posts has a `digest_posts` membership, SQLite's
`ON DELETE SET NULL` on the NOT NULL column `digest_posts.post_id` fails the
whole statement, which the route reports as 500. -/
def deleteAccount (db : DB) (id : String) : RouteResult :=
  if !(db.accounts.any (fun a => a.id == id)) then
    ⟨404, db⟩
  else if db.digestPosts.any (fun dp =>
      db.posts.any (fun p => p.accountId == id && p.id == dp.postId)) then
    ⟨500, db⟩
  else
    ⟨200,
      { db with
        accounts := db.accounts.filter (fun a => a.id != id)
        posts := db.posts.filter (fun p => p.accountId != id)
        media := db.media.filter (fun m =>
          !(db.posts.any (fun p => p.accountId == id && p.id == m.postId))) }⟩

/-- `POST /posts`: a missing account (foreign key) or duplicate primary key is
a 500 (the catch block only matches the composite unique index message); a
duplicate `(accountId, shortcode)` is answered with `postPostsConflictStatus`. -/
def createPost (db : DB) (id : String) (inp : NewPostInput) : RouteResult :=
  if db.posts.any (fun p =>
      p.accountId == inp.accountId && p.shortcode == inp.shortcode) then
    ⟨postPostsConflictStatus, db⟩
  else if !(db.accounts.any (fun a => a.id == inp.accountId)) then
    ⟨500, db⟩
  else if db.posts.any (fun p => p.id == id) then
    ⟨500, db⟩
  else
    ⟨201,
      { db with
        posts := db.posts ++
          [⟨id, inp.accountId, inp.shortcode, inp.caption, inp.publishedAt, inp.raw⟩] }⟩

def applyPostUpdate (p : Post) (inp : UpdatePostInput) : Post :=
  { p with
    shortcode := inp.shortcode.getD p.shortcode
    publishedAt := inp.publishedAt.getD p.publishedAt
    caption := match inp.caption with | some c => some c | none => p.caption
    raw := match inp.raw with | some r => some r | none => p.raw }

/-- `PATCH /posts/:id`: empty body is 400, unmatched id is 404; a shortcode
colliding with another post of the same account violates the unique index and
is answered with `patchPostsConflictStatus`. -/
def updatePost (db : DB) (id : String) (inp : UpdatePostInput) : RouteResult :=
  if inp.shortcode == none && inp.publishedAt == none &&
      inp.caption == none && inp.raw == none then
    ⟨400, db⟩
  else if !(db.posts.any (fun p => p.id == id)) then
    ⟨404, db⟩
  else if (match inp.shortcode with
           | some sc => db.posts.any (fun p => p.id == id &&
               db.posts.any (fun q =>
                 q.id != id && q.accountId == p.accountId && q.shortcode == sc))
           | none => false) then
    ⟨patchPostsConflictStatus, db⟩
  else
    ⟨200,
      { db with
        posts := db.posts.map fun p =>
          if p.id == id then applyPostUpdate p inp else p }⟩

/-- `DELETE /posts/:id`: cascades to the post's media.  If the post has a
`digest_posts` membership, `ON DELETE SET NULL` on the NOT NULL column
`digest_posts.post_id` fails the statement and the route answers 500. -/
def deletePost (db : DB) (id : String) : RouteResult :=
  if !(db.posts.any (fun p => p.id == id)) then
    ⟨404, db⟩
  else if db.digestPosts.any (fun dp => dp.postId == id) then
    ⟨500, db⟩
  else
    ⟨200,
      { db with
        posts := db.posts.filter (fun p => p.id != id)
        media := db.media.filter (fun m => m.postId != id) }⟩

def defaultSettingsRow : SettingsRow := ⟨1, .daily, false⟩

/-- Result of `GET /settings`: status, the returned row, successor state. -/
structure SettingsResult where
  status : Nat
  row : Option SettingsRow
  db : DB
deriving DecidableEq, Repr

/-- `GET /settings`: get-or-create of the singleton row with id 1. -/
def getSettings (db : DB) : SettingsResult :=
  match db.settingsRows.find? (fun r => r.id == 1) with
  | some r => ⟨200, some r, db⟩
  | none =>
    ⟨200, some defaultSettingsRow,
      { db with
        settingsRows := db.settingsRows ++ [defaultSettingsRow] }⟩

def applySettingsUpdate (r : SettingsRow) (inp : UpdateSettingsInput) :
    SettingsRow :=
  { r with
    digestFrequency := inp.digestFrequency.getD r.digestFrequency
    instantAlerts := inp.instantAlerts.getD r.instantAlerts }

/-- `PATCH /settings`: empty body is 400, no row with id 1 is 404. -/
def patchSettings (db : DB) (inp : UpdateSettingsInput) : RouteResult :=
  if inp.digestFrequency == none && inp.instantAlerts == none then
    ⟨400, db⟩
  else if !(db.settingsRows.any (fun r => r.id == 1)) then
    ⟨404, db⟩
  else
    ⟨200,
      { db with
        settingsRows := db.settingsRows.map fun r =>
          if r.id == 1 then applySettingsUpdate r inp else r }⟩

/-- `POST /digests`: the catch block has no unique branch, so a duplicate
primary key is a 500. -/
def createDigest (db : DB) (id : String) (inp : NewDigestInput) : RouteResult :=
  if db.digests.any (fun d => d.id == id) then
    ⟨500, db⟩
  else
    ⟨201,
      { db with
        digests := db.digests ++ [⟨id, inp.sentAt, inp.periodStart, inp.periodEnd⟩] }⟩

def applyDigestUpdate (d : Digest) (inp : UpdateDigestInput) : Digest :=
  { d with
    sentAt := inp.sentAt.getD d.sentAt
    periodStart := inp.periodStart.getD d.periodStart
    periodEnd := inp.periodEnd.getD d.periodEnd }

/-- `PATCH /digests/:id`. -/
def updateDigest (db : DB) (id : String) (inp : UpdateDigestInput) :
    RouteResult :=
  if inp.sentAt == none && inp.periodStart == none && inp.periodEnd == none then
    ⟨400, db⟩
  else if !(db.digests.any (fun d => d.id == id)) then
    ⟨404, db⟩
  else
    ⟨200,
      { db with
        digests := db.digests.map fun d =>
          if d.id == id then applyDigestUpdate d inp else d }⟩

/-- `DELETE /digests/:id`: cascades to the digest's `digest_posts` rows. -/
def deleteDigest (db : DB) (id : String) : RouteResult :=
  if !(db.digests.any (fun d => d.id == id)) then
    ⟨404, db⟩
  else
    ⟨200,
      { db with
        digests := db.digests.filter (fun d => d.id != id)
        digestPosts := db.digestPosts.filter (fun dp => dp.digestId != id) }⟩

/-- One row-by-row transactional insert into `digest_posts`: the first failing
row aborts with its error (500 for a foreign-key violation, 409-producing
unique violation of the composite primary key). -/
def insertPairs (digestId : String) (ds : List Digest) (ps : List Post) :
    List DigestPost → List String → Except Nat (List DigestPost)
  | dps, [] => .ok dps
  | dps, pid :: rest =>
    if !(ds.any (fun d => d.id == digestId)) ||
        !(ps.any (fun p => p.id == pid)) then
      .error 500
    else if dps.any (fun dp => dp.digestId == digestId && dp.postId == pid) then
      .error 409
    else
      insertPairs digestId ds ps (dps ++ [⟨digestId, pid⟩]) rest

/-- `POST /digests/:id/posts`: inserts one `digest_posts` row per requested
post inside a transaction; a unique violation of the `(digest_id, post_id)`
primary key rolls everything back and answers 409. -/
def attachDigestPosts (db : DB) (digestId : String) (postIds : List String) :
    RouteResult :=
  if postIds.isEmpty then
    ⟨400, db⟩
  else
    match insertPairs digestId db.digests db.posts db.digestPosts postIds with
    | .ok dps => ⟨201, { db with digestPosts := dps }⟩
    | .error code => ⟨code, db⟩

/-- `DELETE /digests/:id/posts` (registered under a doubled path but with this
body): removes matching join rows, 404 when none matched. -/
def detachDigestPosts (db : DB) (digestId : String) (postIds : List String) :
    RouteResult :=
  if postIds.isEmpty then
    ⟨400, db⟩
  else if !(db.digestPosts.any (fun dp =>
      dp.digestId == digestId && postIds.any (fun pid => pid == dp.postId))) then
    ⟨404, db⟩
  else
    ⟨200,
      { db with
        digestPosts := db.digestPosts.filter fun dp =>
          !(dp.digestId == digestId && postIds.any (fun pid => pid == dp.postId)) }⟩

/-- One media descriptor of a candidate post. -/
structure MediaDescriptor where
  id : String
  kind : MediaKind
  url : String
  width : Option Int
  height : Option Int
  thumbUrl : Option String
deriving DecidableEq, Repr

/-- One candidate post handed to the Reconciler. -/
structure Candidate where
  postId : String
  shortcode : String
  caption : Option String
  publishedAt : Int
  raw : Option String
  media : List MediaDescriptor
deriving DecidableEq, Repr

/-- Modelled from the spec: the Post Reconciler of §4.2 is not under `src/`
(only the schema and the CRUD routes are).  Per candidate it looks up the
existing post by `(accountId, shortcode)`, skips it when present, and otherwise
inserts the post row plus one media row per descriptor in a single atomic unit;
a storage-constraint violation during the insert is swallowed as a benign
duplicate (the whole candidate is skipped, nothing partial is stored). -/
def reconcileCandidate (db : DB) (accountId : String) (cand : Candidate) : DB :=
  if !(db.accounts.any (fun a => a.id == accountId)) then
    db
  else if db.posts.any (fun p =>
      p.accountId == accountId && p.shortcode == cand.shortcode) then
    db
  else if db.posts.any (fun p => p.id == cand.postId) then
    db
  else if cand.media.any (fun m => db.media.any (fun m0 => m0.id == m.id)) then
    db
  else if !(decide (cand.media.map (fun m => m.id)).Nodup) then
    db
  else
    { db with
      posts := db.posts ++
        [⟨cand.postId, accountId, cand.shortcode, cand.caption,
          cand.publishedAt, cand.raw⟩]
      media := db.media ++ cand.media.map (fun m =>
        ⟨m.id, cand.postId, m.kind, m.url, m.width, m.height, m.thumbUrl⟩) }

/-- `GET /media`. -/
def listMedia (db : DB) : List MediaRow := db.media

/-- `GET /media/:id`. -/
def getMediaById (db : DB) (id : String) : Nat × Option MediaRow :=
  match db.media.find? (fun m => m.id == id) with
  | some m => (200, some m)
  | none => (404, none)

/-- A call to one of the two media routes (`routes/media.ts` has only GETs). -/
inductive MediaCall where
| listAll
| byId (id : String)
deriving DecidableEq, Repr

/-- Running a media route: the handler only executes SELECTs, so the returned
successor state is the input state. -/
def runMediaCall (db : DB) : MediaCall → (Nat × List MediaRow) × DB
  | .listAll => ((200, listMedia db), db)
  | .byId id => (((getMediaById db id).1, (getMediaById db id).2.toList), db)

/-- Result of `GET /posts/:id/media`: status, error message, media list. -/
structure PostMediaResult where
  status : Nat
  errorMsg : Option String
  data : List MediaRow
deriving DecidableEq, Repr

/-- `GET /posts/:id/media`: 404 with `Post not found` when no post row has the
id, otherwise the media rows whose `postId` equals the id. -/
def getPostMedia (db : DB) (id : String) : PostMediaResult :=
  if db.posts.any (fun p => p.id == id) then
    ⟨200, none, db.media.filter (fun m => m.postId == id)⟩
  else
    ⟨404, some "Post not found", []⟩

/-- Insert a post into a list sorted by `publishedAt` descending. -/
def insertByPublished (p : Post) : List Post → List Post
  | [] => [p]
  | q :: qs =>
    if p.publishedAt ≤ q.publishedAt then q :: insertByPublished p qs
    else p :: q :: qs

/-- `ORDER BY published_at DESC` of the posts listing. -/
def sortByPublishedDesc : List Post → List Post
  | [] => []
  | p :: ps => insertByPublished p (sortByPublishedDesc ps)

structure PageMeta where
  total : Nat
  page : Nat
  limit : Nat
  totalPages : Nat
deriving DecidableEq, Repr

structure PostsPage where
  status : Nat
  data : List Post
  meta : PageMeta
deriving DecidableEq, Repr

/-- `GET /posts?page=&limit=`: `paginationSchema` defaults page to 1 and limit
to 20 and enforces `1 ≤ page`, `1 ≤ limit ≤ 100`; the handler selects with
`offset = (page - 1) * limit`, orders by `published_at` descending, and returns
`meta.totalPages = Math.ceil(total / limit)`. -/
def listPosts (db : DB) (pageQ limitQ : Option Nat) : PostsPage :=
  let page := pageQ.getD 1
  let limit := limitQ.getD 20
  if page < 1 || limit < 1 || 100 < limit then
    ⟨400, [], ⟨0, page, limit, 0⟩⟩
  else
    let total := db.posts.length
    ⟨200,
      ((sortByPublishedDesc db.posts).drop ((page - 1) * limit)).take limit,
      ⟨total, page, limit, (total + limit - 1) / limit⟩⟩

/-- One state-changing API operation, with generated ids and timestamps made
explicit parameters. -/
inductive Op where
| createAccount (id : String) (now : Int) (inp : NewAccountInput)
| updateAccount (id : String) (inp : UpdateAccountInput)
| deleteAccount (id : String)
| createPost (id : String) (inp : NewPostInput)
| updatePost (id : String) (inp : UpdatePostInput)
| deletePost (id : String)
| readSettings
| patchSettings (inp : UpdateSettingsInput)
| createDigest (id : String) (inp : NewDigestInput)
| updateDigest (id : String) (inp : UpdateDigestInput)
| deleteDigest (id : String)
| attachPosts (digestId : String) (postIds : List String)
| detachPosts (digestId : String) (postIds : List String)
| reconcile (accountId : String) (cand : Candidate)

/-- Successor state of one operation. -/
def applyOp (op : Op) (db : DB) : DB :=
  match op with
  | .createAccount id now inp => (createAccount db id now inp).db
  | .updateAccount id inp => (updateAccount db id inp).db
  | .deleteAccount id => (deleteAccount db id).db
  | .createPost id inp => (createPost db id inp).db
  | .updatePost id inp => (updatePost db id inp).db
  | .deletePost id => (deletePost db id).db
  | .readSettings => (getSettings db).db
  | .patchSettings inp => (patchSettings db inp).db
  | .createDigest id inp => (createDigest db id inp).db
  | .updateDigest id inp => (updateDigest db id inp).db
  | .deleteDigest id => (deleteDigest db id).db
  | .attachPosts digestId postIds => (attachDigestPosts db digestId postIds).db
  | .detachPosts digestId postIds => (detachDigestPosts db digestId postIds).db
  | .reconcile accountId cand => reconcileCandidate db accountId cand

def Step (s s' : DB) : Prop := ∃ op, applyOp op s = s'

/-- A database state the system can actually be in: reachable from the empty
database by API operations (and reconciliation). -/
def Reachable (s : DB) : Prop := Relation.ReflTransGen Step emptyDB s

/-! ### Well-formedness invariants maintained by every operation -/

/-- Invariants of reachable database states: distinct post ids, the unique
index on `(accountId, shortcode)`, media foreign-key integrity, the settings
singleton, and the `(digestId, postId)` primary key of the join table. -/
structure Wf (db : DB) : Prop where
  postIds : db.posts.Pairwise fun p q => p.id ≠ q.id
  postKeys : db.posts.Pairwise fun p q =>
    p.accountId ≠ q.accountId ∨ p.shortcode ≠ q.shortcode
  mediaFk : ∀ m ∈ db.media, ∃ p ∈ db.posts, p.id = m.postId
  settingsOne : ∀ r ∈ db.settingsRows, r.id = 1
  settingsIds : db.settingsRows.Pairwise fun r t => r.id ≠ t.id
  dpKeys : db.digestPosts.Pairwise fun x y =>
    x.digestId ≠ y.digestId ∨ x.postId ≠ y.postId

theorem wf_empty : Wf emptyDB := by
  constructor <;> simp [emptyDB]

theorem pairwise_filter_of_pairwise {α : Type} {R : α → α → Prop}
    {l : List α} (p : α → Bool) (h : l.Pairwise R) :
    (l.filter p).Pairwise R :=
  List.Pairwise.sublist (List.filter_sublist l) h

theorem pairwise_append_singleton {α : Type} {R : α → α → Prop}
    {l : List α} {x : α} (h : l.Pairwise R) (hx : ∀ y ∈ l, R y x) :
    (l ++ [x]).Pairwise R := by
  refine List.pairwise_append.mpr ⟨h, List.pairwise_singleton R x, ?_⟩
  intro a ha b hb
  simp only [List.mem_singleton] at hb
  subst hb
  exact hx a ha

theorem wf_createAccount (db : DB) (id : String) (now : Int)
    (inp : NewAccountInput) (h : Wf db) : Wf (createAccount db id now inp).db := by
  unfold createAccount
  split
  · exact h
  · exact ⟨h.postIds, h.postKeys, h.mediaFk, h.settingsOne, h.settingsIds, h.dpKeys⟩

theorem wf_updateAccount (db : DB) (id : String) (inp : UpdateAccountInput)
    (h : Wf db) : Wf (updateAccount db id inp).db := by
  unfold updateAccount
  split
  · exact h
  split
  · exact h
  split
  · exact h
  · exact ⟨h.postIds, h.postKeys, h.mediaFk, h.settingsOne, h.settingsIds, h.dpKeys⟩

theorem wf_createDigest (db : DB) (id : String) (inp : NewDigestInput)
    (h : Wf db) : Wf (createDigest db id inp).db := by
  unfold createDigest
  split
  · exact h
  · exact ⟨h.postIds, h.postKeys, h.mediaFk, h.settingsOne, h.settingsIds, h.dpKeys⟩

theorem wf_updateDigest (db : DB) (id : String) (inp : UpdateDigestInput)
    (h : Wf db) : Wf (updateDigest db id inp).db := by
  unfold updateDigest
  split
  · exact h
  split
  · exact h
  · exact ⟨h.postIds, h.postKeys, h.mediaFk, h.settingsOne, h.settingsIds, h.dpKeys⟩

theorem wf_deleteDigest (db : DB) (id : String) (h : Wf db) :
    Wf (deleteDigest db id).db := by
  unfold deleteDigest
  split
  · exact h
  · exact ⟨h.postIds, h.postKeys, h.mediaFk, h.settingsOne, h.settingsIds,
      pairwise_filter_of_pairwise _ h.dpKeys⟩

theorem wf_detachDigestPosts (db : DB) (digestId : String)
    (postIds : List String) (h : Wf db) :
    Wf (detachDigestPosts db digestId postIds).db := by
  unfold detachDigestPosts
  split
  · exact h
  split
  · exact h
  · exact ⟨h.postIds, h.postKeys, h.mediaFk, h.settingsOne, h.settingsIds,
      pairwise_filter_of_pairwise _ h.dpKeys⟩

theorem wf_deleteAccount (db : DB) (id : String) (h : Wf db) :
    Wf (deleteAccount db id).db := by
  unfold deleteAccount
  split
  · exact h
  split
  · exact h
  refine ⟨pairwise_filter_of_pairwise _ h.postIds,
    pairwise_filter_of_pairwise _ h.postKeys, ?_, h.settingsOne, h.settingsIds,
    h.dpKeys⟩
  intro m hm
  rw [List.mem_filter] at hm
  obtain ⟨hm1, hm2⟩ := hm
  obtain ⟨p, hp, hpid⟩ := h.mediaFk m hm1
  refine ⟨p, ?_, hpid⟩
  rw [List.mem_filter]
  refine ⟨hp, ?_⟩
  simp only [Bool.not_eq_true', List.any_eq_false, Bool.and_eq_true,
    beq_iff_eq, not_and] at hm2
  simp only [bne_iff_ne, ne_eq]
  intro hacc
  exact hm2 p hp hacc hpid

theorem wf_createPost (db : DB) (id : String) (inp : NewPostInput)
    (h : Wf db) : Wf (createPost db id inp).db := by
  unfold createPost
  split
  next => exact h
  next hdup =>
  split
  next => exact h
  next =>
  split
  next => exact h
  next hpk =>
  simp only [List.any_eq_true, Bool.and_eq_true, beq_iff_eq, not_exists,
    not_and] at hdup
  simp only [List.any_eq_true, beq_iff_eq, not_exists, not_and] at hpk
  refine ⟨?_, ?_, ?_, h.settingsOne, h.settingsIds, h.dpKeys⟩
  · refine pairwise_append_singleton h.postIds ?_
    intro p hp
    exact fun he => hpk p hp he
  · refine pairwise_append_singleton h.postKeys ?_
    intro p hp
    by_cases hacc : p.accountId = inp.accountId
    · exact Or.inr (hdup p hp hacc)
    · exact Or.inl hacc
  · intro m hm
    obtain ⟨p, hp, hpid⟩ := h.mediaFk m hm
    exact ⟨p, List.mem_append_left _ hp, hpid⟩

theorem wf_deletePost (db : DB) (id : String) (h : Wf db) :
    Wf (deletePost db id).db := by
  unfold deletePost
  split
  · exact h
  split
  · exact h
  refine ⟨pairwise_filter_of_pairwise _ h.postIds,
    pairwise_filter_of_pairwise _ h.postKeys, ?_, h.settingsOne, h.settingsIds,
    h.dpKeys⟩
  intro m hm
  rw [List.mem_filter] at hm
  obtain ⟨hm1, hm2⟩ := hm
  obtain ⟨p, hp, hpid⟩ := h.mediaFk m hm1
  refine ⟨p, ?_, hpid⟩
  rw [List.mem_filter]
  refine ⟨hp, ?_⟩
  simp only [bne_iff_ne, ne_eq] at hm2 ⊢
  rw [hpid]
  exact hm2

theorem wf_getSettings (db : DB) (h : Wf db) : Wf (getSettings db).db := by
  unfold getSettings
  split
  · exact h
  next hfind =>
  rw [List.find?_eq_none] at hfind
  refine ⟨h.postIds, h.postKeys, h.mediaFk, ?_, ?_, h.dpKeys⟩
  · intro r hr
    rw [List.mem_append] at hr
    rcases hr with hr | hr
    · exact h.settingsOne r hr
    · simp only [List.mem_singleton] at hr
      rw [hr]
      rfl
  · refine pairwise_append_singleton h.settingsIds ?_
    intro r hr
    have := hfind r hr
    simp only [beq_iff_eq] at this
    simpa [defaultSettingsRow] using this

theorem wf_patchSettings (db : DB) (inp : UpdateSettingsInput) (h : Wf db) :
    Wf (patchSettings db inp).db := by
  unfold patchSettings
  split
  · exact h
  split
  · exact h
  have hid : ∀ r : SettingsRow,
      (if r.id == 1 then applySettingsUpdate r inp else r).id = r.id := by
    intro r
    split <;> rfl
  refine ⟨h.postIds, h.postKeys, h.mediaFk, ?_, ?_, h.dpKeys⟩
  · intro r hr
    rw [List.mem_map] at hr
    obtain ⟨r0, hr0, hr0e⟩ := hr
    rw [← hr0e, hid r0]
    exact h.settingsOne r0 hr0
  · rw [List.pairwise_map]
    refine h.settingsIds.imp ?_
    intro r t hrt
    rw [hid r, hid t]
    exact hrt

theorem wf_updatePost (db : DB) (id : String) (inp : UpdatePostInput)
    (h : Wf db) : Wf (updatePost db id inp).db := by
  unfold updatePost
  split
  next => exact h
  next =>
  split
  next => exact h
  next =>
  split
  next => exact h
  next hconf =>
  have hid : ∀ p : Post,
      (if p.id == id then applyPostUpdate p inp else p).id = p.id := by
    intro p
    split <;> rfl
  have hacc : ∀ p : Post,
      (if p.id == id then applyPostUpdate p inp else p).accountId = p.accountId := by
    intro p
    split <;> rfl
  refine ⟨?_, ?_, ?_, h.settingsOne, h.settingsIds, h.dpKeys⟩
  · rw [List.pairwise_map]
    refine h.postIds.imp ?_
    intro p q hpq
    rw [hid p, hid q]
    exact hpq
  · rw [List.pairwise_map]
    have hcomb := h.postIds.and h.postKeys
    refine hcomb.imp_of_mem ?_
    intro p q hp hq hpq
    rcases hsc : inp.shortcode with _ | sc
    · have hshort : ∀ r : Post,
          (if r.id == id then applyPostUpdate r inp else r).shortcode =
            r.shortcode := by
        intro r
        split
        · simp [applyPostUpdate, hsc]
        · rfl
      rw [hacc p, hacc q, hshort p, hshort q]
      exact hpq.2
    · rw [hsc] at hconf
      simp only [List.any_eq_true, Bool.and_eq_true, beq_iff_eq, bne_iff_ne,
        ne_eq, not_exists, not_and] at hconf
      have hshortU : ∀ r : Post, r.id = id →
          (if r.id == id then applyPostUpdate r inp else r).shortcode = sc := by
        intro r hr
        simp [hr, applyPostUpdate, hsc]
      have hshortN : ∀ r : Post, r.id ≠ id →
          (if r.id == id then applyPostUpdate r inp else r).shortcode =
            r.shortcode := by
        intro r hr
        simp [hr]
      by_cases hpi : p.id = id
      · have hqi : q.id ≠ id := fun hq' => hpq.1 (hpi.trans hq'.symm)
        rw [hacc p, hacc q, hshortU p hpi, hshortN q hqi]
        by_cases ha : q.accountId = p.accountId
        · have := hconf p hp hpi q hq ⟨hqi, ha⟩
          exact Or.inr fun he => this he.symm
        · exact Or.inl fun he => ha he.symm
      · by_cases hqi : q.id = id
        · rw [hacc p, hacc q, hshortN p hpi, hshortU q hqi]
          by_cases ha : p.accountId = q.accountId
          · have := hconf q hq hqi p hp ⟨hpi, ha⟩
            exact Or.inr this
          · exact Or.inl ha
        · rw [hacc p, hacc q, hshortN p hpi, hshortN q hqi]
          exact hpq.2
  · intro m hm
    obtain ⟨p, hp, hpid⟩ := h.mediaFk m hm
    refine ⟨_, List.mem_map_of_mem _ hp, ?_⟩
    rw [hid p]
    exact hpid

theorem insertPairs_ok_pairwise (digestId : String) (ds : List Digest)
    (ps : List Post) :
    ∀ (pids : List String) (dps out : List DigestPost),
      dps.Pairwise (fun x y => x.digestId ≠ y.digestId ∨ x.postId ≠ y.postId) →
      insertPairs digestId ds ps dps pids = .ok out →
      out.Pairwise (fun x y => x.digestId ≠ y.digestId ∨ x.postId ≠ y.postId) := by
  intro pids
  induction pids with
  | nil =>
    intro dps out hp hok
    unfold insertPairs at hok
    cases hok
    exact hp
  | cons pid rest ih =>
    intro dps out hp hok
    unfold insertPairs at hok
    split at hok
    · simp at hok
    split at hok
    · simp at hok
    next hdup =>
    refine ih (dps ++ [⟨digestId, pid⟩]) out ?_ hok
    refine pairwise_append_singleton hp ?_
    intro y hy
    simp only [List.any_eq_true, Bool.and_eq_true, beq_iff_eq, not_exists,
      not_and] at hdup
    by_cases hydig : y.digestId = digestId
    · exact Or.inr fun hpost => hdup y hy hydig hpost
    · exact Or.inl hydig

theorem wf_attachDigestPosts (db : DB) (digestId : String)
    (postIds : List String) (h : Wf db) :
    Wf (attachDigestPosts db digestId postIds).db := by
  unfold attachDigestPosts
  split
  · exact h
  split
  next dps heq =>
    exact ⟨h.postIds, h.postKeys, h.mediaFk, h.settingsOne, h.settingsIds,
      insertPairs_ok_pairwise digestId db.digests db.posts postIds
        db.digestPosts dps h.dpKeys heq⟩
  next => exact h

theorem wf_reconcileCandidate (db : DB) (accountId : String) (cand : Candidate)
    (h : Wf db) : Wf (reconcileCandidate db accountId cand) := by
  unfold reconcileCandidate
  split
  next => exact h
  next =>
  split
  next => exact h
  next hdup =>
  split
  next => exact h
  next hpk =>
  split
  next => exact h
  next =>
  split
  next => exact h
  next =>
  simp only [List.any_eq_true, Bool.and_eq_true, beq_iff_eq, not_exists,
    not_and] at hdup hpk
  refine ⟨?_, ?_, ?_, h.settingsOne, h.settingsIds, h.dpKeys⟩
  · refine pairwise_append_singleton h.postIds ?_
    intro p hp he
    exact hpk p hp he
  · refine pairwise_append_singleton h.postKeys ?_
    intro p hp
    by_cases hacc : p.accountId = accountId
    · exact Or.inr (hdup p hp hacc)
    · exact Or.inl hacc
  · intro m hm
    rw [List.mem_append] at hm
    rcases hm with hm | hm
    · obtain ⟨p, hp, hpid⟩ := h.mediaFk m hm
      exact ⟨p, List.mem_append_left _ hp, hpid⟩
    · rw [List.mem_map] at hm
      obtain ⟨d, _, hde⟩ := hm
      refine ⟨⟨cand.postId, accountId, cand.shortcode, cand.caption,
        cand.publishedAt, cand.raw⟩, ?_, ?_⟩
      · exact List.mem_append_right _ (by simp)
      · rw [← hde]

theorem wf_applyOp (op : Op) (db : DB) (h : Wf db) : Wf (applyOp op db) := by
  cases op with
  | createAccount id now inp => exact wf_createAccount db id now inp h
  | updateAccount id inp => exact wf_updateAccount db id inp h
  | deleteAccount id => exact wf_deleteAccount db id h
  | createPost id inp => exact wf_createPost db id inp h
  | updatePost id inp => exact wf_updatePost db id inp h
  | deletePost id => exact wf_deletePost db id h
  | readSettings => exact wf_getSettings db h
  | patchSettings inp => exact wf_patchSettings db inp h
  | createDigest id inp => exact wf_createDigest db id inp h
  | updateDigest id inp => exact wf_updateDigest db id inp h
  | deleteDigest id => exact wf_deleteDigest db id h
  | attachPosts digestId postIds => exact wf_attachDigestPosts db digestId postIds h
  | detachPosts digestId postIds => exact wf_detachDigestPosts db digestId postIds h
  | reconcile accountId cand => exact wf_reconcileCandidate db accountId cand h

/-- Every reachable database state satisfies the invariants. -/
theorem reachable_wf {db : DB} (h : Reachable db) : Wf db := by
  induction h with
  | refl => exact wf_empty
  | tail _ hstep ih =>
    obtain ⟨op, hop⟩ := hstep
    rw [← hop]
    exact wf_applyOp op _ ih

/-! ### Concrete reachable states used as witnesses and counterexamples -/

/-- One account `a1`. -/
def stA : DB := applyOp (.createAccount "a1" 0 ⟨"h1", "http://u", .active⟩) emptyDB

/-- Account `a1` with post `p1` (shortcode `s1`). -/
def stP : DB := applyOp (.createPost "p1" ⟨"a1", "s1", 10, none, none⟩) stA

/-- Account `a1` with posts `p1` (shortcode `s1`) and `p2` (shortcode `s2`). -/
def stP2 : DB := applyOp (.createPost "p2" ⟨"a1", "s2", 20, none, none⟩) stP

/-- `stP2` plus digest `d1`. -/
def stD1 : DB := applyOp (.createDigest "d1" ⟨1, 0, 1⟩) stP2

/-- `stD1` plus digest `d2`. -/
def stD2 : DB := applyOp (.createDigest "d2" ⟨2, 1, 2⟩) stD1

/-- `stD2` with post `p1` attached to digest `d1`. -/
def stJ : DB := applyOp (.attachPosts "d1" ["p1"]) stD2

/-- `stP` after reconciling a candidate post `p3` carrying one media row `m1`. -/
def stMedia : DB :=
  applyOp (.reconcile "a1" ⟨"p3", "s3", none, 30, none,
    [⟨"m1", .image, "http://m", none, none, none⟩]⟩) stP

theorem reach_stA : Reachable stA := Relation.ReflTransGen.single ⟨_, rfl⟩

theorem reach_stP : Reachable stP := reach_stA.tail ⟨_, rfl⟩

theorem reach_stP2 : Reachable stP2 := reach_stP.tail ⟨_, rfl⟩

theorem reach_stD1 : Reachable stD1 := reach_stP2.tail ⟨_, rfl⟩

theorem reach_stD2 : Reachable stD2 := reach_stD1.tail ⟨_, rfl⟩

theorem reach_stJ : Reachable stJ := reach_stD2.tail ⟨_, rfl⟩

theorem reach_stMedia : Reachable stMedia := reach_stP.tail ⟨_, rfl⟩

/-! ### Supporting lemmas -/

theorem posts_id_inj {l : List Post}
    (h : l.Pairwise fun p q => p.id ≠ q.id) {p q : Post}
    (hp : p ∈ l) (hq : q ∈ l) (he : p.id = q.id) : p = q := by
  by_contra hne
  exact h.forall (fun a b hab => fun hba => hab hba.symm) hp hq hne he

theorem insertByPublished_perm (p : Post) (l : List Post) :
    (insertByPublished p l).Perm (p :: l) := by
  induction l with
  | nil => exact List.Perm.refl _
  | cons q qs ih =>
    unfold insertByPublished
    split
    · exact (ih.cons q).trans (List.Perm.swap p q qs)
    · exact List.Perm.refl _

theorem sortByPublishedDesc_perm (l : List Post) :
    (sortByPublishedDesc l).Perm l := by
  induction l with
  | nil => exact List.Perm.refl _
  | cons p ps ih =>
    exact (insertByPublished_perm p (sortByPublishedDesc ps)).trans (ih.cons p)

theorem insertByPublished_pairwise (p : Post) (l : List Post)
    (h : l.Pairwise fun a b => b.publishedAt ≤ a.publishedAt) :
    (insertByPublished p l).Pairwise fun a b => b.publishedAt ≤ a.publishedAt := by
  induction l with
  | nil => exact List.pairwise_singleton _ p
  | cons q qs ih =>
    unfold insertByPublished
    split
    next hle =>
      rw [List.pairwise_cons]
      refine ⟨?_, ih h.of_cons⟩
      intro x hx
      have hx' : x ∈ p :: qs := (insertByPublished_perm p qs).mem_iff.mp hx
      rcases List.mem_cons.mp hx' with hx' | hx'
      · rw [hx']
        exact hle
      · exact List.rel_of_pairwise_cons h hx'
    next hgt =>
      rw [List.pairwise_cons]
      refine ⟨?_, h⟩
      intro x hx
      rcases List.mem_cons.mp hx with hx | hx
      · rw [hx]
        exact le_of_not_le hgt
      · exact le_trans (List.rel_of_pairwise_cons h hx) (le_of_not_le hgt)

theorem sortByPublishedDesc_sorted (l : List Post) :
    (sortByPublishedDesc l).Pairwise fun a b => b.publishedAt ≤ a.publishedAt := by
  induction l with
  | nil => exact List.Pairwise.nil
  | cons p ps ih => exact insertByPublished_pairwise p _ ih

/-- `(t + l - 1) / l` is the least `n` with `t ≤ n * l`: it is the ceiling of
`t / l`. -/
theorem ceilDiv_least (t l n : Nat) (hl : 1 ≤ l) :
    t ≤ n * l ↔ (t + l - 1) / l ≤ n := by
  have hl0 : 0 < l := hl
  have hexp : (n + 1) * l = n * l + l := by ring
  constructor
  · intro h
    have h2 : t + l - 1 < (n + 1) * l := by omega
    have := (Nat.div_lt_iff_lt_mul hl0).mpr h2
    omega
  · intro h
    have h2 : (t + l - 1) / l < n + 1 := by omega
    have := (Nat.div_lt_iff_lt_mul hl0).mp h2
    omega

theorem insertPairs_ok_of (digestId : String) (ds : List Digest)
    (ps : List Post) :
    ∀ (pids : List String) (dps : List DigestPost),
      (∃ d ∈ ds, d.id = digestId) →
      (∀ pid ∈ pids, ∃ p ∈ ps, p.id = pid) →
      pids.Nodup →
      (∀ pid ∈ pids, ∀ dp ∈ dps, ¬(dp.digestId = digestId ∧ dp.postId = pid)) →
      insertPairs digestId ds ps dps pids =
        .ok (dps ++ pids.map fun pid => ⟨digestId, pid⟩) := by
  intro pids
  induction pids with
  | nil =>
    intro dps _ _ _ _
    simp [insertPairs]
  | cons pid rest ih =>
    intro dps hd hp hnd hfresh
    have hde : (ds.any fun d => d.id == digestId) = true := by
      rw [List.any_eq_true]
      obtain ⟨d, hd1, hd2⟩ := hd
      exact ⟨d, hd1, by simp [hd2]⟩
    have hpe : (ps.any fun p => p.id == pid) = true := by
      rw [List.any_eq_true]
      obtain ⟨p, hp1, hp2⟩ := hp pid (List.mem_cons_self pid rest)
      exact ⟨p, hp1, by simp [hp2]⟩
    have hdupe : (dps.any fun dp =>
        dp.digestId == digestId && dp.postId == pid) = false := by
      rw [List.any_eq_false]
      intro dp hdp
      simp only [Bool.and_eq_true, beq_iff_eq, not_and]
      intro h1 h2
      exact hfresh pid (List.mem_cons_self pid rest) dp hdp ⟨h1, h2⟩
    have hnotin : pid ∉ rest := (List.nodup_cons.mp hnd).1
    have hstep := ih (dps ++ [⟨digestId, pid⟩]) hd
      (fun pid' hm => hp pid' (List.mem_cons_of_mem pid hm))
      (List.nodup_cons.mp hnd).2
      (by
        intro pid' hm dp hdp
        rw [List.mem_append] at hdp
        rcases hdp with hdp | hdp
        · exact hfresh pid' (List.mem_cons_of_mem pid hm) dp hdp
        · simp only [List.mem_singleton] at hdp
          rw [hdp]
          intro hc
          have hc2 : pid = pid' := hc.2
          exact hnotin (by rwa [hc2]))
    unfold insertPairs
    rw [hde, hpe, hdupe]
    simp only [Bool.not_true, Bool.or_false, Bool.false_or, Bool.not_false,
      if_false, Bool.false_eq_true, ite_false, List.map_cons]
    rw [hstep]
    simp [List.append_assoc]

/-! ### Claims -/

/-- C1, counterexample: in the reachable state `stJ` the post `p1` is a member
of digest `d1`, yet `POST /digests/d2/posts` with `p1` in `postIds` answers 201
and does make `p1` a member of `d2` while it is still a member of `d1` — the
already-attached post is not skipped, so a post can be a member of two
digests. -/
theorem c1_counterexample :
    Reachable stJ ∧
    (⟨"d1", "p1"⟩ : DigestPost) ∈ stJ.digestPosts ∧
    (attachDigestPosts stJ "d2" ["p1"]).status = 201 ∧
    (⟨"d1", "p1"⟩ : DigestPost) ∈ (attachDigestPosts stJ "d2" ["p1"]).db.digestPosts ∧
    (⟨"d2", "p1"⟩ : DigestPost) ∈ (attachDigestPosts stJ "d2" ["p1"]).db.digestPosts :=
  ⟨reach_stJ, by decide, by decide, by decide, by decide⟩

/-- C1 (amended): the attach operation does not skip posts that are members of
another digest.  In every reachable state the `(digestId, postId)` pairs of the
join table are unique (a post is in a given digest at most once), and an attach
on digest `d2` whose requested pairs are all new succeeds with 201 and appends
exactly one membership row per requested post, keeping every existing
membership — so a post may become a member of several digests; re-attaching a
post that is already a member of the same digest is rejected with 409 and
changes nothing. -/
theorem c1_attach_appends_membership (db : DB) (d2 : String)
    (pids : List String) (hreach : Reachable db) :
    db.digestPosts.Pairwise
      (fun x y => x.digestId ≠ y.digestId ∨ x.postId ≠ y.postId) ∧
    (pids ≠ [] →
      (∃ d ∈ db.digests, d.id = d2) →
      (∀ pid ∈ pids, ∃ p ∈ db.posts, p.id = pid) →
      pids.Nodup →
      (∀ pid ∈ pids, ∀ dp ∈ db.digestPosts,
        ¬(dp.digestId = d2 ∧ dp.postId = pid)) →
      (attachDigestPosts db d2 pids).status = 201 ∧
      (attachDigestPosts db d2 pids).db.digestPosts =
        db.digestPosts ++ pids.map (fun pid => ⟨d2, pid⟩)) ∧
    (∀ pid : String,
      (∃ d ∈ db.digests, d.id = d2) →
      (∃ p ∈ db.posts, p.id = pid) →
      (⟨d2, pid⟩ : DigestPost) ∈ db.digestPosts →
      (attachDigestPosts db d2 [pid]).status = 409 ∧
      (attachDigestPosts db d2 [pid]).db = db) := by
  refine ⟨(reachable_wf hreach).dpKeys, ?_, ?_⟩
  · intro hne hd hp hnd hfresh
    have hok := insertPairs_ok_of d2 db.digests db.posts pids db.digestPosts
      hd hp hnd hfresh
    unfold attachDigestPosts
    rw [if_neg (by simp [hne]), hok]
    exact ⟨rfl, rfl⟩
  · intro pid hd hp hmem
    have hde : (db.digests.any fun d => d.id == d2) = true := by
      rw [List.any_eq_true]
      obtain ⟨d, hd1, hd2⟩ := hd
      exact ⟨d, hd1, by simp [hd2]⟩
    have hpe : (db.posts.any fun p => p.id == pid) = true := by
      rw [List.any_eq_true]
      obtain ⟨p, hp1, hp2⟩ := hp
      exact ⟨p, hp1, by simp [hp2]⟩
    have hdup : (db.digestPosts.any fun dp =>
        dp.digestId == d2 && dp.postId == pid) = true := by
      rw [List.any_eq_true]
      exact ⟨⟨d2, pid⟩, hmem, by simp⟩
    unfold attachDigestPosts insertPairs
    rw [hde, hpe, hdup]
    simp only [List.isEmpty_cons, Bool.not_true, Bool.or_false, Bool.false_or,
      Bool.false_eq_true, if_false, if_true]
    exact ⟨trivial, trivial⟩

/-- C1 (amended), witness: in the reachable state `stJ`, attaching `p1`
(already a member of `d1`) to `d2` appends the membership row `(d2, p1)`,
while re-attaching `p1` to `d1` is rejected with 409 and changes nothing. -/
theorem c1_attach_witness :
    ((attachDigestPosts stJ "d2" ["p1"]).status = 201 ∧
     (attachDigestPosts stJ "d2" ["p1"]).db.digestPosts =
       stJ.digestPosts ++ [⟨"d2", "p1"⟩]) ∧
    (attachDigestPosts stJ "d1" ["p1"]).status = 409 ∧
    (attachDigestPosts stJ "d1" ["p1"]).db = stJ := by
  have h2 := (c1_attach_appends_membership stJ "d2" ["p1"] reach_stJ).2.1
    (by decide) (by decide) (by decide) (by decide) (by decide)
  have h1 := (c1_attach_appends_membership stJ "d1" ["p1"] reach_stJ).2.2 "p1"
    (by decide) (by decide) (by decide)
  exact ⟨h2, h1.1, h1.2⟩

/-- C4: the claim is right and the code is wrong.  In the reachable state `stJ`
the post `p1` is a member of digest `d1`; `DELETE /posts/p1` does not succeed:
the schema's `onDelete: "set null"` on the NOT NULL primary-key column
`digest_posts.post_id` makes SQLite reject the delete, the route answers 500,
and neither the post nor its membership row is removed (the schema comment says
the post delete was meant to work while keeping the digest). -/
theorem c4_delete_post_in_digest_fails :
    Reachable stJ ∧
    (∃ p ∈ stJ.posts, p.id = "p1") ∧
    (⟨"d1", "p1"⟩ : DigestPost) ∈ stJ.digestPosts ∧
    (deletePost stJ "p1").status = 500 ∧
    (deletePost stJ "p1").db = stJ :=
  ⟨reach_stJ, by decide, by decide, by decide, by decide⟩

/-- C6: the `POST /posts` conflict branch matches the SQLite message for the
unique index on `posts(account_id, shortcode)` and answers 409, but the
`PATCH /posts/:id` branch matches a camelCase `posts.accountId` pattern that
never occurs in the SQLite message, so a conflicting update falls through to
the generic 500: in the reachable state `stP2`, inserting a post with the
duplicate pair `(a1, s1)` answers 409 while updating `p2`'s shortcode to the
conflicting `s1` answers 500 (state unchanged in both cases). -/
theorem c6_conflict_statuses :
    Reachable stP2 ∧
    jsIncludes sqliteUniquePostsMsg postPostsConflictPattern = true ∧
    jsIncludes sqliteUniquePostsMsg patchPostsConflictPattern = false ∧
    (createPost stP2 "p9" ⟨"a1", "s1", 11, none, none⟩).status = 409 ∧
    (createPost stP2 "p9" ⟨"a1", "s1", 11, none, none⟩).db = stP2 ∧
    (updatePost stP2 "p2" ⟨some "s1", none, none, none⟩).status = 500 ∧
    (updatePost stP2 "p2" ⟨some "s1", none, none, none⟩).db = stP2 :=
  ⟨reach_stP2, by decide, by decide, by decide, by decide, by decide, by decide⟩

/-- C2: in every reachable database state the pair `(accountId, shortcode)` is
unique across post rows, and a `POST /posts` whose body repeats the
`(accountId, shortcode)` pair of an existing post does not create it: the
response is not 201 and the database is unchanged. -/
theorem c2_post_uniqueness (db : DB) (hreach : Reachable db) :
    db.posts.Pairwise
      (fun p q => p.accountId ≠ q.accountId ∨ p.shortcode ≠ q.shortcode) ∧
    ∀ (id : String) (inp : NewPostInput),
      (∃ p ∈ db.posts,
        p.accountId = inp.accountId ∧ p.shortcode = inp.shortcode) →
      (createPost db id inp).status ≠ 201 ∧ (createPost db id inp).db = db := by
  refine ⟨(reachable_wf hreach).postKeys, ?_⟩
  intro id inp hdup
  have hc : (db.posts.any fun p =>
      p.accountId == inp.accountId && p.shortcode == inp.shortcode) = true := by
    rw [List.any_eq_true]
    obtain ⟨p, h1, h2, h3⟩ := hdup
    exact ⟨p, h1, by simp [h2, h3]⟩
  unfold createPost
  rw [hc]
  simp only [if_true]
  exact ⟨by decide, trivial⟩

/-- C2, witness: the state `stP` (account `a1`, post `p1` with shortcode `s1`)
is reachable, its posts satisfy the uniqueness invariant, and re-posting the
pair `(a1, s1)` fails leaving the state unchanged. -/
theorem c2_witness :
    (stP.posts.Pairwise fun p q =>
      p.accountId ≠ q.accountId ∨ p.shortcode ≠ q.shortcode) ∧
    (createPost stP "p9" ⟨"a1", "s1", 11, none, none⟩).status ≠ 201 ∧
    (createPost stP "p9" ⟨"a1", "s1", 11, none, none⟩).db = stP := by
  have h := c2_post_uniqueness stP reach_stP
  have h2 := h.2 "p9" ⟨"a1", "s1", 11, none, none⟩ (by decide)
  exact ⟨h.1, h2.1, h2.2⟩

/-- C3, counterexample: in the reachable state `stJ` the account `a1` exists
and owns the post `p1`, which is a member of digest `d1`; `DELETE /accounts/a1`
does not remove the account's posts — it fails with a 500 (the cascaded post
delete trips the NOT NULL `digest_posts.post_id` under `ON DELETE SET NULL`)
and leaves the state unchanged. -/
theorem c3_counterexample :
    Reachable stJ ∧
    (∃ a ∈ stJ.accounts, a.id = "a1") ∧
    (deleteAccount stJ "a1").status = 500 ∧
    (deleteAccount stJ "a1").db = stJ ∧
    (∃ p ∈ (deleteAccount stJ "a1").db.posts, p.accountId = "a1") :=
  ⟨reach_stJ, by decide, by decide, by decide, by decide⟩

/-- C3 (amended): cascade integrity holds as long as no digest membership is
involved.  If account `A` exists and none of its posts is a member of any
digest, `DELETE /accounts/:id` answers 200, removes exactly the posts whose
`accountId` is `A` and exactly the media owned by those posts, and leaves all
other accounts, posts, media, digests, settings and memberships unchanged;
likewise, if post `P` exists and is in no digest, `DELETE /posts/:id` answers
200 and removes exactly `P` and its media.  If such a membership exists, the
delete fails with 500 and changes nothing. -/
theorem c3_cascade_integrity (db : DB) (aid pid : String) :
    ((∃ a ∈ db.accounts, a.id = aid) →
      (∀ dp ∈ db.digestPosts, ∀ p ∈ db.posts,
        p.accountId = aid → dp.postId ≠ p.id) →
      (deleteAccount db aid).status = 200 ∧
      (deleteAccount db aid).db.accounts =
        db.accounts.filter (fun a => a.id != aid) ∧
      (deleteAccount db aid).db.posts =
        db.posts.filter (fun p => p.accountId != aid) ∧
      (∀ p ∈ db.posts, p.accountId = aid →
        p ∉ (deleteAccount db aid).db.posts) ∧
      (∀ p ∈ db.posts, p.accountId ≠ aid →
        p ∈ (deleteAccount db aid).db.posts) ∧
      (∀ m ∈ db.media, (∃ p ∈ db.posts, p.id = m.postId ∧ p.accountId = aid) →
        m ∉ (deleteAccount db aid).db.media) ∧
      (∀ m ∈ db.media, (∀ p ∈ db.posts, p.id = m.postId → p.accountId ≠ aid) →
        m ∈ (deleteAccount db aid).db.media) ∧
      (deleteAccount db aid).db.digests = db.digests ∧
      (deleteAccount db aid).db.digestPosts = db.digestPosts ∧
      (deleteAccount db aid).db.settingsRows = db.settingsRows) ∧
    ((∃ a ∈ db.accounts, a.id = aid) →
      (∃ dp ∈ db.digestPosts, ∃ p ∈ db.posts,
        p.accountId = aid ∧ dp.postId = p.id) →
      (deleteAccount db aid).status = 500 ∧ (deleteAccount db aid).db = db) ∧
    ((∃ p ∈ db.posts, p.id = pid) →
      (∀ dp ∈ db.digestPosts, dp.postId ≠ pid) →
      (deletePost db pid).status = 200 ∧
      (deletePost db pid).db.posts = db.posts.filter (fun p => p.id != pid) ∧
      (deletePost db pid).db.media =
        db.media.filter (fun m => m.postId != pid) ∧
      (∀ m ∈ db.media, m.postId = pid → m ∉ (deletePost db pid).db.media) ∧
      (∀ m ∈ db.media, m.postId ≠ pid → m ∈ (deletePost db pid).db.media) ∧
      (deletePost db pid).db.accounts = db.accounts ∧
      (deletePost db pid).db.digests = db.digests ∧
      (deletePost db pid).db.digestPosts = db.digestPosts ∧
      (deletePost db pid).db.settingsRows = db.settingsRows) ∧
    ((∃ p ∈ db.posts, p.id = pid) →
      (∃ dp ∈ db.digestPosts, dp.postId = pid) →
      (deletePost db pid).status = 500 ∧ (deletePost db pid).db = db) := by
  refine ⟨?_, ?_, ?_, ?_⟩
  · intro hex hnomem
    have he : (db.accounts.any fun a => a.id == aid) = true := by
      rw [List.any_eq_true]
      obtain ⟨a, h1, h2⟩ := hex
      exact ⟨a, h1, by simp [h2]⟩
    have hm : (db.digestPosts.any fun dp =>
        db.posts.any fun p => p.accountId == aid && p.id == dp.postId) = false := by
      rw [List.any_eq_false]
      intro dp hdp
      simp only [List.any_eq_true, Bool.and_eq_true, beq_iff_eq, not_exists,
        not_and]
      intro p hp hacc
      exact fun hid => hnomem dp hdp p hp hacc hid.symm
    unfold deleteAccount
    rw [he, hm]
    simp only [Bool.not_true, Bool.false_eq_true, if_false]
    refine ⟨trivial, trivial, trivial, ?_, ?_, ?_, ?_, trivial, trivial, trivial⟩
    · intro p hp hacc hmem
      rw [List.mem_filter] at hmem
      simp only [bne_iff_ne, ne_eq] at hmem
      exact hmem.2 hacc
    · intro p hp hacc
      rw [List.mem_filter]
      refine ⟨hp, ?_⟩
      simpa using hacc
    · intro m hm0 hown hmem
      rw [List.mem_filter] at hmem
      obtain ⟨p, hp, hpid, hpacc⟩ := hown
      have : (db.posts.any fun p => p.accountId == aid && p.id == m.postId) = true := by
        rw [List.any_eq_true]
        exact ⟨p, hp, by simp [hpid, hpacc]⟩
      rw [this] at hmem
      exact absurd hmem.2 (by decide)
    · intro m hm0 hfree
      rw [List.mem_filter]
      refine ⟨hm0, ?_⟩
      simp only [Bool.not_eq_true', List.any_eq_false, Bool.and_eq_true,
        beq_iff_eq, not_and]
      intro p hp hacc
      exact fun hid => hfree p hp hid hacc
  · intro hex hmem
    have he : (db.accounts.any fun a => a.id == aid) = true := by
      rw [List.any_eq_true]
      obtain ⟨a, h1, h2⟩ := hex
      exact ⟨a, h1, by simp [h2]⟩
    have hm : (db.digestPosts.any fun dp =>
        db.posts.any fun p => p.accountId == aid && p.id == dp.postId) = true := by
      rw [List.any_eq_true]
      obtain ⟨dp, hdp, p, hp, hacc, hid⟩ := hmem
      refine ⟨dp, hdp, ?_⟩
      rw [List.any_eq_true]
      exact ⟨p, hp, by simp [hacc, hid]⟩
    unfold deleteAccount
    rw [he, hm]
    exact ⟨rfl, rfl⟩
  · intro hex hnomem
    have he : (db.posts.any fun p => p.id == pid) = true := by
      rw [List.any_eq_true]
      obtain ⟨p, h1, h2⟩ := hex
      exact ⟨p, h1, by simp [h2]⟩
    have hm : (db.digestPosts.any fun dp => dp.postId == pid) = false := by
      rw [List.any_eq_false]
      intro dp hdp
      simp only [beq_iff_eq]
      exact hnomem dp hdp
    unfold deletePost
    rw [he, hm]
    simp only [Bool.not_true, Bool.false_eq_true, if_false]
    refine ⟨trivial, trivial, trivial, ?_, ?_, trivial, trivial, trivial, trivial⟩
    · intro m hm0 hpid hmem
      rw [List.mem_filter] at hmem
      simp only [bne_iff_ne, ne_eq] at hmem
      exact hmem.2 hpid
    · intro m hm0 hpid
      rw [List.mem_filter]
      refine ⟨hm0, ?_⟩
      simpa using hpid
  · intro hex hmem
    have he : (db.posts.any fun p => p.id == pid) = true := by
      rw [List.any_eq_true]
      obtain ⟨p, h1, h2⟩ := hex
      exact ⟨p, h1, by simp [h2]⟩
    have hm : (db.digestPosts.any fun dp => dp.postId == pid) = true := by
      rw [List.any_eq_true]
      obtain ⟨dp, hdp, hid⟩ := hmem
      exact ⟨dp, hdp, by simp [hid]⟩
    unfold deletePost
    rw [he, hm]
    exact ⟨rfl, rfl⟩

/-- C3 (amended), witness: in the reachable state `stP2` (no digest
memberships), deleting account `a1` answers 200 and removes its posts, and
deleting post `p2` answers 200. -/
theorem c3_cascade_witness :
    (deleteAccount stP2 "a1").status = 200 ∧
    (deleteAccount stP2 "a1").db.posts =
      stP2.posts.filter (fun p => p.accountId != "a1") ∧
    (deletePost stP2 "p2").status = 200 ∧
    (deletePost stP2 "p2").db.media =
      stP2.media.filter (fun m => m.postId != "p2") := by
  have h := c3_cascade_integrity stP2 "a1" "p2"
  have h1 := h.1 (by decide) (by decide)
  have h3 := h.2.2.1 (by decide) (by decide)
  exact ⟨h1.1, h1.2.2.1, h3.1, h3.2.2.1⟩

/-- C5: in every reachable state, `GET /settings` answers 200 with a settings
row; when a row with id 1 exists it is returned and the state is unchanged;
otherwise the default row (id 1, digestFrequency daily, instantAlerts false) is
created and returned; after the read exactly one settings row exists. -/
theorem c5_settings_get_or_create (db : DB) (hreach : Reachable db) :
    (getSettings db).status = 200 ∧
    (∃ r, (getSettings db).row = some r) ∧
    (∀ r ∈ db.settingsRows, (getSettings db).row = some r ∧
      (getSettings db).db = db) ∧
    (db.settingsRows = [] →
      (getSettings db).row = some defaultSettingsRow ∧
      (getSettings db).db.settingsRows = [defaultSettingsRow]) ∧
    (getSettings db).db.settingsRows.length = 1 := by
  have hwf := reachable_wf hreach
  match hrows : db.settingsRows with
  | [] =>
    have hfind : db.settingsRows.find? (fun r => r.id == 1) = none := by
      rw [hrows]
      rfl
    unfold getSettings
    rw [hfind]
    refine ⟨rfl, ⟨defaultSettingsRow, rfl⟩, ?_, fun _ => ⟨rfl, ?_⟩, ?_⟩
    · intro r hr
      exact absurd hr (List.not_mem_nil r)
    · show db.settingsRows ++ [defaultSettingsRow] = [defaultSettingsRow]
      rw [hrows]
      rfl
    · show (db.settingsRows ++ [defaultSettingsRow]).length = 1
      rw [hrows]
      rfl
  | r0 :: rest =>
    have hid : r0.id = 1 := hwf.settingsOne r0 (by rw [hrows]; exact List.mem_cons_self r0 rest)
    have hrest : rest = [] := by
      cases rest with
      | nil => rfl
      | cons r1 t =>
        have hid1 : r1.id = 1 := hwf.settingsOne r1
          (by rw [hrows]; exact List.mem_cons_of_mem r0 (List.mem_cons_self r1 t))
        have hpw := hwf.settingsIds
        rw [hrows, List.pairwise_cons] at hpw
        exact absurd (hid.trans hid1.symm) (hpw.1 r1 (List.mem_cons_self r1 t))
    have hfind : db.settingsRows.find? (fun r => r.id == 1) = some r0 := by
      rw [hrows, List.find?_cons_of_pos]
      simp [hid]
    unfold getSettings
    rw [hfind]
    refine ⟨rfl, ⟨r0, rfl⟩, ?_, ?_, ?_⟩
    · intro r hr
      rw [hrest] at hr
      simp only [List.mem_singleton] at hr
      rw [hr]
      exact ⟨rfl, rfl⟩
    · intro hnil
      exact absurd hnil (List.cons_ne_nil r0 rest)
    · show db.settingsRows.length = 1
      rw [hrows, hrest]
      rfl

/-- C5, witness: on the reachable empty database, `GET /settings` creates and
returns the default row and leaves exactly one settings row. -/
theorem c5_witness :
    (getSettings emptyDB).status = 200 ∧
    (getSettings emptyDB).row = some defaultSettingsRow ∧
    (getSettings emptyDB).db.settingsRows = [defaultSettingsRow] ∧
    (getSettings emptyDB).db.settingsRows.length = 1 := by
  have h := c5_settings_get_or_create emptyDB Relation.ReflTransGen.refl
  have h4 := h.2.2.2.1 rfl
  exact ⟨h.1, h4.1, h4.2, h.2.2.2.2⟩

/-- C7: the media routes are read-only — any sequence of calls to `GET /media`
and `GET /media/:id` leaves the database unchanged — and in every reachable
state every media row is owned by exactly one post row. -/
theorem c7_media_read_only (db : DB) (hreach : Reachable db) :
    (∀ c : MediaCall, (runMediaCall db c).2 = db) ∧
    (∀ calls : List MediaCall,
      calls.foldl (fun s c => (runMediaCall s c).2) db = db) ∧
    (∀ m ∈ db.media, ∃! p, p ∈ db.posts ∧ p.id = m.postId) := by
  have hwf := reachable_wf hreach
  have hone : ∀ (s : DB) (c : MediaCall), (runMediaCall s c).2 = s := by
    intro s c
    cases c <;> rfl
  refine ⟨hone db, ?_, ?_⟩
  · intro calls
    induction calls with
    | nil => rfl
    | cons c cs ih =>
      rw [List.foldl_cons, hone db c]
      exact ih
  · intro m hm
    obtain ⟨p, hp, hpid⟩ := hwf.mediaFk m hm
    refine ⟨p, ⟨hp, hpid⟩, ?_⟩
    intro q hq
    exact posts_id_inj hwf.postIds hq.1 hp (hq.2.trans hpid.symm)

/-- C7, witness: in the reachable state `stMedia` (which has the media row `m1`
owned by post `p3`), a concrete sequence of media-route calls leaves the state
unchanged and every media row has exactly one owning post. -/
theorem c7_witness :
    ([MediaCall.listAll, MediaCall.byId "m1", MediaCall.byId "zz"].foldl
      (fun s c => (runMediaCall s c).2) stMedia = stMedia) ∧
    (∀ m ∈ stMedia.media, ∃! p, p ∈ stMedia.posts ∧ p.id = m.postId) := by
  have h := c7_media_read_only stMedia reach_stMedia
  exact ⟨h.2.1 _, h.2.2⟩

/-- C8: `GET /posts/:id/media` answers 404 with `Post not found` when no post
row has the requested id, and otherwise answers 200 with exactly the media
rows whose `postId` equals the id (possibly the empty list). -/
theorem c8_post_media (db : DB) (id : String) :
    ((∀ p ∈ db.posts, p.id ≠ id) →
      getPostMedia db id = ⟨404, some "Post not found", []⟩) ∧
    ((∃ p ∈ db.posts, p.id = id) →
      getPostMedia db id =
        ⟨200, none, db.media.filter (fun m => m.postId == id)⟩) := by
  constructor
  · intro hnone
    have hc : (db.posts.any fun p => p.id == id) = false := by
      rw [List.any_eq_false]
      intro p hp
      simp only [beq_iff_eq]
      exact hnone p hp
    unfold getPostMedia
    rw [hc]
    rfl
  · intro hex
    have hc : (db.posts.any fun p => p.id == id) = true := by
      rw [List.any_eq_true]
      obtain ⟨p, h1, h2⟩ := hex
      exact ⟨p, h1, by simp [h2]⟩
    unfold getPostMedia
    rw [hc]
    rfl

/-- C8, witness: in the reachable state `stMedia`, an unknown id gets the 404
`Post not found` answer, post `p3` gets its single media row, and post `p1`
(which exists but owns no media) gets the empty list. -/
theorem c8_witness :
    getPostMedia stMedia "zz" = ⟨404, some "Post not found", []⟩ ∧
    getPostMedia stMedia "p3" =
      ⟨200, none, stMedia.media.filter (fun m => m.postId == "p3")⟩ ∧
    getPostMedia stMedia "p1" =
      ⟨200, none, stMedia.media.filter (fun m => m.postId == "p1")⟩ ∧
    stMedia.media.filter (fun m => m.postId == "p1") = [] := by
  refine ⟨(c8_post_media stMedia "zz").1 (by decide),
    (c8_post_media stMedia "p3").2 (by decide),
    (c8_post_media stMedia "p1").2 (by decide), by decide⟩

/-- C9: `PATCH /accounts/:id` can change only handle, url and status.  An
empty body is rejected with 400 and changes nothing; the applied update never
touches `id`, `createdAt`, `lastCheckedAt` or `lastShortcode`; on a 200 answer
the stored accounts are exactly the old ones with only the matching row passed
through `applyAccountUpdate`, so every other account row is unchanged; and no
other table is ever touched. -/
theorem c9_update_account_frame (db : DB) (id : String)
    (inp : UpdateAccountInput) :
    (inp.handle = none → inp.url = none → inp.status = none →
      updateAccount db id inp = ⟨400, db⟩) ∧
    (∀ a : Account,
      (applyAccountUpdate a inp).id = a.id ∧
      (applyAccountUpdate a inp).createdAt = a.createdAt ∧
      (applyAccountUpdate a inp).lastCheckedAt = a.lastCheckedAt ∧
      (applyAccountUpdate a inp).lastShortcode = a.lastShortcode) ∧
    ((updateAccount db id inp).status = 200 →
      (updateAccount db id inp).db.accounts =
        db.accounts.map (fun a =>
          if a.id == id then applyAccountUpdate a inp else a) ∧
      (∀ a ∈ db.accounts, a.id ≠ id →
        a ∈ (updateAccount db id inp).db.accounts)) ∧
    (updateAccount db id inp).db.posts = db.posts ∧
    (updateAccount db id inp).db.media = db.media ∧
    (updateAccount db id inp).db.settingsRows = db.settingsRows ∧
    (updateAccount db id inp).db.digests = db.digests ∧
    (updateAccount db id inp).db.digestPosts = db.digestPosts := by
  refine ⟨?_, ?_, ?_, ?_, ?_, ?_, ?_, ?_⟩
  · intro h1 h2 h3
    unfold updateAccount
    rw [if_pos (by simp [h1, h2, h3])]
  · intro a
    exact ⟨rfl, rfl, rfl, rfl⟩
  · intro hst
    unfold updateAccount at hst ⊢
    split at hst
    · simp at hst
    split at hst
    · simp at hst
    split at hst
    · simp at hst
    next h1 h2 h3 =>
    rw [if_neg (by simpa using h1), if_neg (by simpa using h2),
      if_neg (by simpa using h3)]
    refine ⟨rfl, ?_⟩
    intro a ha hne
    rw [List.mem_map]
    exact ⟨a, ha, by simp [hne]⟩
  all_goals
    unfold updateAccount
    split
    · rfl
    split
    · rfl
    split
    · rfl
    · rfl

/-- C9, witness: in the reachable state `stA`, an empty body is rejected with
400, and a status-only update of `a1` answers 200 keeping `id`, `createdAt`,
`lastCheckedAt` and `lastShortcode` as they were, touching no other table. -/
theorem c9_witness :
    updateAccount stA "a1" ⟨none, none, none⟩ = ⟨400, stA⟩ ∧
    (∀ a : Account,
      (applyAccountUpdate a ⟨none, none, some .paused⟩).id = a.id ∧
      (applyAccountUpdate a ⟨none, none, some .paused⟩).createdAt = a.createdAt ∧
      (applyAccountUpdate a ⟨none, none, some .paused⟩).lastCheckedAt =
        a.lastCheckedAt ∧
      (applyAccountUpdate a ⟨none, none, some .paused⟩).lastShortcode =
        a.lastShortcode) ∧
    ((updateAccount stA "a1" ⟨none, none, some .paused⟩).status = 200 →
      (updateAccount stA "a1" ⟨none, none, some .paused⟩).db.accounts =
        stA.accounts.map (fun a =>
          if a.id == "a1" then applyAccountUpdate a ⟨none, none, some .paused⟩
          else a)) ∧
    (updateAccount stA "a1" ⟨none, none, some .paused⟩).db.posts = stA.posts := by
  have h0 := c9_update_account_frame stA "a1" (⟨none, none, none⟩ : UpdateAccountInput)
  have h := c9_update_account_frame stA "a1"
    (⟨none, none, some .paused⟩ : UpdateAccountInput)
  exact ⟨h0.1 rfl rfl rfl, h.2.1, fun hst => (h.2.2.1 hst).1, h.2.2.2.1⟩

/-- C10: for every valid page `p ≥ 1` and limit `1 ≤ l ≤ 100`, `GET /posts`
answers 200 with exactly the slice of the posts sorted by `publishedAt`
descending that skips `(p - 1) * l` rows and holds at most `l` rows;
`meta.total` is the total post count and `meta.totalPages` is the ceiling of
`total / l` (the least `n` with `total ≤ n * l`); omitted query parameters
default to page 1 and limit 20. -/
theorem c10_pagination (db : DB) (p l : Nat) (hp : 1 ≤ p) (hl1 : 1 ≤ l)
    (hl2 : l ≤ 100) :
    (listPosts db (some p) (some l)).status = 200 ∧
    (listPosts db (some p) (some l)).data =
      ((sortByPublishedDesc db.posts).drop ((p - 1) * l)).take l ∧
    (listPosts db (some p) (some l)).data.length ≤ l ∧
    (sortByPublishedDesc db.posts).Perm db.posts ∧
    (sortByPublishedDesc db.posts).Pairwise
      (fun a b => b.publishedAt ≤ a.publishedAt) ∧
    (listPosts db (some p) (some l)).meta.total = db.posts.length ∧
    (listPosts db (some p) (some l)).meta.totalPages =
      (db.posts.length + l - 1) / l ∧
    (∀ n : Nat, db.posts.length ≤ n * l ↔
      (listPosts db (some p) (some l)).meta.totalPages ≤ n) ∧
    listPosts db none none = listPosts db (some 1) (some 20) := by
  have hcond : ¬((decide (p < 1) || decide (l < 1) || decide (100 < l)) = true) := by
    simp
    omega
  unfold listPosts
  dsimp only [Option.getD_some]
  rw [if_neg hcond]
  refine ⟨rfl, rfl, ?_, sortByPublishedDesc_perm db.posts,
    sortByPublishedDesc_sorted db.posts, rfl, rfl, ?_, rfl⟩
  · exact le_trans (List.length_take_le l _) (le_refl l)
  · intro n
    exact ceilDiv_least db.posts.length l n hl1

/-- C10, witness: in the reachable state `stP2` (posts `p1` published at 10
and `p2` at 20), page 2 with limit 1 returns the older post and two total
pages. -/
theorem c10_witness :
    (listPosts stP2 (some 2) (some 1)).data =
      ((sortByPublishedDesc stP2.posts).drop 1).take 1 ∧
    (listPosts stP2 (some 2) (some 1)).meta.total = 2 ∧
    (listPosts stP2 (some 2) (some 1)).meta.totalPages = 2 ∧
    (stP2.posts.length ≤ 2 * 1 ↔
      (listPosts stP2 (some 2) (some 1)).meta.totalPages ≤ 2) := by
  have h := c10_pagination stP2 2 1 (by decide) (by decide) (by decide)
  refine ⟨h.2.1, ?_, ?_, ?_⟩
  · exact h.2.2.2.2.2.1.trans (by decide)
  · exact h.2.2.2.2.2.2.1.trans (by decide)
  · exact h.2.2.2.2.2.2.2.1 2
